import Mathlib

/-!
Verification of `databento/common/validation.py`: the parameter-validation
layer of the databento client library.  Python strings are embedded as
`List Char`; Python's `ValueError` (the spec's `InvalidParameter`) is the
`.error` case of `Except`.  The three functions `validate_enum`,
`validate_maybe_enum` and `validate_gateway` are translated from the source;
the URL splitting/unsplitting they call (`urllib.parse.urlsplit` /
`urlunsplit`, standard library, outside `src/`) and the enum-class value
lookup (`Enum.__call__`, also outside `src/`) are modelled from the spec
and from the standard behavior the spec describes.
-/

namespace Databento

/-- Python strings are modelled as lists of characters. -/
abbrev Str := List Char

/-- The single-quote character, written by code so that string literals in
this file stay free of quote characters. -/
def sq : Char := '\x27'

/-! ## Enum model

The enum classes passed to `validate_enum` live outside `src/`.
Modelled from the spec: an enum is a closed set of named variants, each with
a unique canonical string representation, in a fixed declared order (§3, §9
of the spec).  A member is identified by its canonical string. -/

/-- Modelled from the spec: an enum type, given by its printed class name
(what Python interpolates for the class) and the canonical strings of its
members in declared order, pairwise distinct. -/
structure PyEnum where
  name : Str
  members : List Str
  nodup : members.Nodup

/-- A caller-supplied value: either an enum variant (identified by its
canonical string) or a plain string. -/
inductive PyValue where
  | member (s : Str)
  | str (s : Str)

/-- Python `str(value)`: a variant prints as its canonical string (spec §3),
a plain string prints as itself. -/
def pyStr : PyValue → Str
  | .member s => s
  | .str s => s

/-- Modelled from the spec: Python `enum(value)` (the `Enum.__call__` value
lookup, outside `src/`).  Per spec §4.1 a value resolves exactly when it is
a member of the enum or equals a member's canonical string; the resolved
member is the one with that canonical string. -/
def enumCall (E : PyEnum) (v : PyValue) : Option Str :=
  if pyStr v ∈ E.members then some (pyStr v) else none

/-- Python `repr` of one string (quotes it in single quotes). -/
def strRepr (s : Str) : Str := sq :: (s ++ [sq])

/-- The comma-separated body of a Python tuple `repr`. -/
def tupleReprAux : List Str → Str
  | [] => []
  | [s] => strRepr s
  | s :: s2 :: rest => strRepr s ++ ", ".data ++ tupleReprAux (s2 :: rest)

/-- Python `repr` of a tuple of strings: `()`, `(\x27a\x27,)`, or
`(\x27a\x27, \x27b\x27)`. -/
def tupleRepr : List Str → Str
  | [] => "()".data
  | [s] => "(".data ++ strRepr s ++ ",)".data
  | s :: s2 :: rest => "(".data ++ tupleReprAux (s :: s2 :: rest) ++ ")".data

/-- The f-string of `validate_enum`'s raise:
`The backtick-param-backtick was not a valid value of enum, was quote-value-quote. Use any of tuple.` -/
def enumErrMsg (param ename vstr : Str) (members : List Str) : Str :=
  "The `".data ++ param ++ "` was not a valid value of ".data ++ ename ++
    ", was ".data ++ [sq] ++ vstr ++ [sq] ++ ". Use any of ".data ++
    tupleRepr members ++ ".".data

/-- Translation of `validate_enum` (validation.py lines 38-45): try the enum
call; on `ValueError` raise with the message listing `tuple(map(str, enum))`. -/
def validate_enum (value : PyValue) (enum : PyEnum) (param : Str) : Except Str Str :=
  match enumCall enum value with
  | some m => .ok m
  | none => .error (enumErrMsg param enum.name (pyStr value) enum.members)

/-- Translation of `validate_maybe_enum` (validation.py lines 77-79):
`None` short-circuits to `None`, otherwise delegate to `validate_enum`. -/
def validate_maybe_enum (value : Option PyValue) (enum : PyEnum) (param : Str) :
    Except Str (Option Str) :=
  match value with
  | none => .ok none
  | some v =>
    match validate_enum v enum param with
    | .ok m => .ok (some m)
    | .error e => .error e

/-- A concrete enum instance used to exercise the enum theorems: models an
encoding selector with canonical strings `csv` and `json` in declared
order. -/
def encodingEnum : PyEnum :=
  ⟨"Encoding".data, ["csv".data, "json".data], by decide⟩

/-! ## URL splitting

Modelled from the spec: `urllib.parse.urlsplit` / `urlunsplit` (Python
standard library, outside `src/`), the "parse into standard URL components"
of spec §4.3: optional scheme before a colon (letter first, then
letters/digits/`+-.`), authority after a leading `//` up to the next
`/ ? #` (raising `Invalid IPv6 URL` on an unmatched square bracket),
fragment after the first `#`, query after the first `?`.  The
control-character sanitization some interpreter versions perform is not
modelled; it does not change the component structure of any input
considered here. -/

/-- Split a list at the first occurrence of `c`: `some (pre, post)` with the
occurrence removed, or `none` when `c` does not occur. -/
def splitOnFirst (c : Char) : Str → Option (Str × Str)
  | [] => none
  | x :: xs =>
    if x = c then some ([], xs)
    else
      match splitOnFirst c xs with
      | some (pre, post) => some (x :: pre, post)
      | none => none

/-- Python `s.split(c, 1)` when `c` occurs, else `(s, empty)`: how urlsplit
removes fragment and query. -/
def splitAt1 (c : Char) (l : Str) : Str × Str :=
  match splitOnFirst c l with
  | some (pre, post) => (pre, post)
  | none => (l, [])

/-- The delimiters that end the authority in `_splitnetloc`. -/
def stopChar (c : Char) : Bool := c == '/' || c == '?' || c == '#'

/-- Python `_splitnetloc`: the authority is everything up to the first
`/`, `?` or `#`; the remainder (delimiter included) is kept. -/
def splitNetlocDelim : Str → Str × Str
  | [] => ([], [])
  | c :: cs =>
    if stopChar c then ([], c :: cs)
    else
      let nr := splitNetlocDelim cs
      (c :: nr.1, nr.2)

/-- The characters allowed in a URL scheme. -/
def schemeChar (c : Char) : Bool :=
  c.isAlpha || c.isDigit || c == '+' || c == '-' || c == '.'

/-- Scheme detection of `urlsplit`: a colon not in first position, with an
ASCII letter first and only scheme characters before it, splits off the
lower-cased scheme; otherwise the scheme is empty and the URL unchanged. -/
def splitScheme (url : Str) : Str × Str :=
  match splitOnFirst ':' url with
  | some (b :: bs, rest) =>
    if b.isAlpha && (b :: bs).all schemeChar then
      ((b :: bs).map Char.toLower, rest)
    else ([], url)
  | _ => ([], url)

/-- An authority with an unmatched square bracket, which makes `urlsplit`
raise `Invalid IPv6 URL`. -/
def badBrackets (n : Str) : Prop :=
  ('[' ∈ n ∧ ']' ∉ n) ∨ (']' ∈ n ∧ '[' ∉ n)

instance : DecidablePred badBrackets := fun n => by
  unfold badBrackets; infer_instance

/-- The five components `urlsplit` produces. -/
structure SplitResult where
  scheme : Str
  netloc : Str
  path : Str
  query : Str
  fragment : Str
deriving DecidableEq

/-- The part of `urlsplit` after scheme removal: authority after a leading
`//` (with the unmatched-bracket check), then fragment, then query. -/
def urlsplitAfterScheme (scheme rest : Str) : Except Str SplitResult :=
  if rest.take 2 = ['/', '/'] then
    let nr := splitNetlocDelim (rest.drop 2)
    if badBrackets nr.1 then .error "Invalid IPv6 URL".data
    else
      let fa := splitAt1 '#' nr.2
      let pq := splitAt1 '?' fa.1
      .ok ⟨scheme, nr.1, pq.1, pq.2, fa.2⟩
  else
    let fa := splitAt1 '#' rest
    let pq := splitAt1 '?' fa.1
    .ok ⟨scheme, [], pq.1, pq.2, fa.2⟩

/-- Modelled from the spec: `urllib.parse.urlsplit` with fragments allowed,
as `validate_gateway` calls it. -/
def urlsplit (url : Str) : Except Str SplitResult :=
  let sr := splitScheme url
  urlsplitAfterScheme sr.1 sr.2

/-- Modelled from the spec: `urllib.parse.urlunsplit`.  When an authority is
present (or the path begins with `//`) the path gets a leading slash if it
lacks one and `//` plus the authority is prepended; then scheme, query and
fragment are attached when non-empty. -/
def urlunsplit (scheme netloc path query fragment : Str) : Str :=
  let u1 :=
    if netloc ≠ [] ∨ path.take 2 = ['/', '/'] then
      let p := if path ≠ [] ∧ path.head? ≠ some '/' then '/' :: path else path
      '/' :: '/' :: (netloc ++ p)
    else path
  let u2 := if scheme ≠ [] then scheme ++ ':' :: u1 else u1
  let u3 := if query ≠ [] then u2 ++ '?' :: query else u2
  if fragment ≠ [] then u3 ++ '#' :: fragment else u3

/-- The f-string of `validate_gateway`'s raise:
backtick-url-backtick ` is not a valid URL`. -/
def invalidUrlMsg (url : Str) : Str :=
  '`' :: (url ++ ('`' :: " is not a valid URL".data))

/-- The branching of `validate_gateway` on the split components
(validation.py lines 106-113): raise when neither authority nor path is
present; rebuild from the authority when present, else from the path used
as the authority. -/
def gatewayOfSplit (url : Str) (r : SplitResult) : Except Str Str :=
  if r.netloc = [] ∧ r.path = [] then .error (invalidUrlMsg url)
  else if r.netloc ≠ [] then
    .ok (urlunsplit "https".data r.netloc r.path [] [])
  else
    .ok (urlunsplit "https".data r.path [] [] [])

/-- Translation of `validate_gateway` (validation.py lines 104-113);
errors raised by `urlsplit` itself propagate. -/
def validate_gateway (url : Str) : Except Str Str :=
  match urlsplit url with
  | .error e => .error e
  | .ok r => gatewayOfSplit url r

/-- Whether an `Except` is the error case (a raised `ValueError` /
`InvalidParameter`). -/
def isErr {α : Type} : Except Str α → Bool
  | .error _ => true
  | .ok _ => false

/-- The message that is read as listing strings in order: each listed string
occurs, and they occur left to right in the given order. -/
def containsInOrder : List Str → Str → Prop
  | [], _ => True
  | s :: rest, msg => ∃ pre suf, msg = pre ++ s ++ suf ∧ containsInOrder rest suf

/-! ## Lemmas about the splitting primitives -/

theorem splitOnFirst_some {c : Char} : ∀ {l pre post : Str},
    splitOnFirst c l = some (pre, post) → l = pre ++ c :: post ∧ c ∉ pre := by
  intro l
  induction l with
  | nil => intro pre post h; simp [splitOnFirst] at h
  | cons x xs ih =>
    intro pre post h
    by_cases hx : x = c
    · subst hx
      simp [splitOnFirst] at h
      obtain ⟨h1, h2⟩ := h
      subst h1; subst h2; simp
    · simp only [splitOnFirst, if_neg hx] at h
      rcases hs : splitOnFirst c xs with _ | ⟨p2, q2⟩
      · rw [hs] at h; simp at h
      · rw [hs] at h
        simp only [Option.some.injEq, Prod.mk.injEq] at h
        obtain ⟨h1, h2⟩ := h
        obtain ⟨ih1, ih2⟩ := ih hs
        subst h2
        constructor
        · rw [← h1]; simp [ih1]
        · rw [← h1]
          intro hmem
          rcases List.mem_cons.mp hmem with hc | hc
          · exact hx hc.symm
          · exact ih2 hc

theorem splitOnFirst_none {c : Char} : ∀ {l : Str},
    splitOnFirst c l = none → c ∉ l := by
  intro l
  induction l with
  | nil => intro _; simp
  | cons x xs ih =>
    intro h
    by_cases hx : x = c
    · subst hx; simp [splitOnFirst] at h
    · simp only [splitOnFirst, if_neg hx] at h
      rcases hs : splitOnFirst c xs with _ | ⟨p2, q2⟩
      · intro hmem
        rcases List.mem_cons.mp hmem with hc | hc
        · exact hx hc.symm
        · exact ih hs hc
      · rw [hs] at h; simp at h

theorem splitAt1_not_mem_fst (c : Char) (l : Str) : c ∉ (splitAt1 c l).1 := by
  unfold splitAt1
  rcases hs : splitOnFirst c l with _ | ⟨pre, post⟩
  · simpa using splitOnFirst_none hs
  · simpa using (splitOnFirst_some hs).2

theorem splitAt1_of_not_mem {c : Char} {l : Str} (h : c ∉ l) :
    splitAt1 c l = (l, []) := by
  unfold splitAt1
  rcases hs : splitOnFirst c l with _ | ⟨pre, post⟩
  · rfl
  · exact absurd ((splitOnFirst_some hs).1 ▸ (by simp : c ∈ pre ++ c :: post)) h

theorem mem_splitAt1_fst {x c : Char} {l : Str} (h : x ∈ (splitAt1 c l).1) :
    x ∈ l := by
  unfold splitAt1 at h
  rcases hs : splitOnFirst c l with _ | ⟨pre, post⟩
  · rw [hs] at h; exact h
  · rw [hs] at h
    simp only at h
    rw [(splitOnFirst_some hs).1]
    exact List.mem_append.mpr (Or.inl h)

theorem splitAt1_cons_stop (c : Char) (l : Str) : splitAt1 c (c :: l) = ([], l) := by
  simp [splitAt1, splitOnFirst]

theorem splitAt1_cons_ne {d c : Char} (h : d ≠ c) (l : Str) :
    (splitAt1 c (d :: l)).1 = d :: (splitAt1 c l).1 := by
  unfold splitAt1
  simp only [splitOnFirst, if_neg h]
  rcases hs : splitOnFirst c l with _ | ⟨pre, post⟩ <;> simp

theorem splitNetlocDelim_eq_append : ∀ l : Str,
    l = (splitNetlocDelim l).1 ++ (splitNetlocDelim l).2 := by
  intro l
  induction l with
  | nil => rfl
  | cons c cs ih =>
    by_cases hc : stopChar c
    · simp [splitNetlocDelim, hc]
    · simp only [splitNetlocDelim, Bool.not_eq_true] at hc ⊢
      rw [hc]
      simpa using ih

theorem splitNetlocDelim_fst_no_stop : ∀ (l : Str), ∀ c ∈ (splitNetlocDelim l).1,
    stopChar c = false := by
  intro l
  induction l with
  | nil => intro c hc; simp [splitNetlocDelim] at hc
  | cons x xs ih =>
    intro c hc
    by_cases hx : stopChar x
    · simp [splitNetlocDelim, hx] at hc
    · simp only [Bool.not_eq_true] at hx
      simp only [splitNetlocDelim, hx, Bool.false_eq_true, if_false] at hc
      rcases List.mem_cons.mp hc with h | h
      · exact h ▸ hx
      · exact ih c h

theorem splitNetlocDelim_snd_head : ∀ l : Str,
    (splitNetlocDelim l).2 = [] ∨
      ∃ d r, (splitNetlocDelim l).2 = d :: r ∧ stopChar d = true := by
  intro l
  induction l with
  | nil => left; rfl
  | cons x xs ih =>
    by_cases hx : stopChar x
    · right; exact ⟨x, xs, by simp [splitNetlocDelim, hx], hx⟩
    · simp only [Bool.not_eq_true] at hx
      simpa [splitNetlocDelim, hx] using ih

theorem splitNetlocDelim_append {n r : Str}
    (hn : ∀ c ∈ n, stopChar c = false)
    (hr : r = [] ∨ ∃ d r', r = d :: r' ∧ stopChar d = true) :
    splitNetlocDelim (n ++ r) = (n, r) := by
  induction n with
  | nil =>
    rcases hr with h | ⟨d, r', h, hd⟩
    · subst h; rfl
    · subst h; simp [splitNetlocDelim, hd]
  | cons x xs ih =>
    have hx : stopChar x = false := hn x (List.mem_cons_self x xs)
    have ih2 := ih (fun c hc => hn c (List.mem_cons_of_mem x hc))
    simp only [List.cons_append, splitNetlocDelim, hx, Bool.false_eq_true, if_false]
    rw [show xs.append r = xs ++ r from rfl, ih2]

theorem stopChar_cases {d : Char} (h : stopChar d = true) :
    d = '/' ∨ d = '?' ∨ d = '#' := by
  simp only [stopChar, Bool.or_eq_true, beq_iff_eq] at h
  tauto

theorem splitOnFirst_https (tail : Str) :
    splitOnFirst ':' ("https://".data ++ tail) =
      some ("https".data, '/' :: '/' :: tail) := by
  rfl

theorem splitScheme_https (tail : Str) :
    splitScheme ("https://".data ++ tail) = ("https".data, '/' :: '/' :: tail) := by
  unfold splitScheme
  rw [splitOnFirst_https]
  rfl

/-- What a successful `urlsplit` guarantees about its components: the
authority contains no delimiter, it passed the bracket check, the path
contains no `#` or `?`, and with a non-empty authority the path is empty or
starts with a slash. -/
theorem urlsplitAfterScheme_ok {s rest : Str} {r : SplitResult}
    (h : urlsplitAfterScheme s rest = .ok r) :
    (∀ c ∈ r.netloc, stopChar c = false) ∧ ¬ badBrackets r.netloc ∧
      '#' ∉ r.path ∧ '?' ∉ r.path ∧
      (r.netloc = [] ∨ r.path = [] ∨ ∃ p', r.path = '/' :: p') := by
  unfold urlsplitAfterScheme at h
  by_cases h2 : rest.take 2 = ['/', '/']
  · rw [if_pos h2] at h
    by_cases hb : badBrackets (splitNetlocDelim (rest.drop 2)).1
    · rw [if_pos hb] at h; exact absurd h (by simp)
    · rw [if_neg hb] at h
      simp only [Except.ok.injEq] at h
      subst h
      simp only
      refine ⟨splitNetlocDelim_fst_no_stop _, hb,
        fun hm => splitAt1_not_mem_fst '#' _ (mem_splitAt1_fst hm),
        splitAt1_not_mem_fst '?' _, ?_⟩
      right
      rcases splitNetlocDelim_snd_head (rest.drop 2) with h0 | ⟨d, rr, hd, hstop⟩
      · rw [h0]
        left; rfl
      · rw [hd]
        rcases stopChar_cases hstop with h | h | h
        · subst h
          right
          rw [splitAt1_cons_ne (by decide : ('/' : Char) ≠ '#')]
          rw [splitAt1_cons_ne (by decide : ('/' : Char) ≠ '?')]
          exact ⟨_, rfl⟩
        · subst h
          left
          rw [splitAt1_cons_ne (by decide : ('?' : Char) ≠ '#')]
          rw [splitAt1_cons_stop]
        · subst h
          left
          rw [splitAt1_cons_stop]
          rfl
  · rw [if_neg h2] at h
    simp only [Except.ok.injEq] at h
    subst h
    refine ⟨?_, ?_, ?_, ?_, ?_⟩
    · intro c hc; simp at hc
    · exact (by decide : ¬ badBrackets ([] : Str))
    · exact fun hm => splitAt1_not_mem_fst '#' _ (mem_splitAt1_fst hm)
    · exact splitAt1_not_mem_fst '?' _
    · exact Or.inl rfl

theorem urlsplit_ok_facts {url : Str} {r : SplitResult} (h : urlsplit url = .ok r) :
    (∀ c ∈ r.netloc, stopChar c = false) ∧ ¬ badBrackets r.netloc ∧
      '#' ∉ r.path ∧ '?' ∉ r.path ∧
      (r.netloc = [] ∨ r.path = [] ∨ ∃ p', r.path = '/' :: p') :=
  urlsplitAfterScheme_ok h

/-- Re-parsing a rebuilt URL `https://tail` (no `#` or `?` in `tail`) splits
`tail` at its first delimiter into authority and path, when the authority
passes the bracket check. -/
theorem urlsplit_https_append {tail : Str}
    (h1 : '#' ∉ tail) (h2 : '?' ∉ tail)
    (hb : ¬ badBrackets (splitNetlocDelim tail).1) :
    urlsplit ("https://".data ++ tail) =
      .ok ⟨"https".data, (splitNetlocDelim tail).1, (splitNetlocDelim tail).2,
        [], []⟩ := by
  unfold urlsplit
  rw [splitScheme_https]
  simp only
  unfold urlsplitAfterScheme
  rw [if_pos (by rfl : ('/' :: '/' :: tail).take 2 = ['/', '/'])]
  simp only [List.drop_succ_cons, List.drop_zero]
  rw [if_neg hb]
  have hsub : ∀ c : Char, c ∉ tail → c ∉ (splitNetlocDelim tail).2 := by
    intro c hc hmem
    exact hc (splitNetlocDelim_eq_append tail ▸ List.mem_append.mpr (Or.inr hmem))
  rw [splitAt1_of_not_mem (hsub '#' h1)]
  simp only
  rw [splitAt1_of_not_mem (hsub '?' h2)]

/-- Re-parsing a rebuilt URL raises `Invalid IPv6 URL` when the would-be
authority has an unmatched bracket. -/
theorem urlsplit_https_append_bad {tail : Str}
    (hb : badBrackets (splitNetlocDelim tail).1) :
    urlsplit ("https://".data ++ tail) = .error "Invalid IPv6 URL".data := by
  unfold urlsplit
  rw [splitScheme_https]
  simp only
  unfold urlsplitAfterScheme
  rw [if_pos (by rfl : ('/' :: '/' :: tail).take 2 = ['/', '/'])]
  simp only [List.drop_succ_cons, List.drop_zero]
  rw [if_pos hb]

theorem urlunsplit_https_netloc {n p : Str} (hn : n ≠ [])
    (hp : p = [] ∨ ∃ p', p = '/' :: p') :
    urlunsplit "https".data n p [] [] = "https://".data ++ (n ++ p) := by
  unfold urlunsplit
  rw [if_pos (Or.inl hn)]
  have hcond : ¬ (p ≠ [] ∧ p.head? ≠ some '/') := by
    rcases hp with h | ⟨p', h⟩ <;> subst h <;> simp
  rw [if_neg hcond]
  simp only [ne_eq, List.cons_ne_self, not_false_eq_true, reduceIte,
    List.not_mem_nil, if_neg (by decide : ¬ ("https".data = []))]
  rfl

theorem urlunsplit_https_pathhost {p : Str} (hp : p ≠ []) :
    urlunsplit "https".data p [] [] [] = "https://".data ++ p := by
  unfold urlunsplit
  rw [if_pos (Or.inl hp)]
  simp

/-! ## Lemmas about `validate_gateway` -/

theorem validate_gateway_eq_of_split {url : Str} {r : SplitResult}
    (h : urlsplit url = .ok r) :
    validate_gateway url = gatewayOfSplit url r := by
  unfold validate_gateway
  rw [h]

theorem validate_gateway_eq_of_err {url e : Str}
    (h : urlsplit url = .error e) : validate_gateway url = .error e := by
  unfold validate_gateway
  rw [h]

/-- With a non-empty authority, the gateway validator rebuilds
`https://` + authority + path. -/
theorem gateway_netloc_eval {url : Str} {r : SplitResult}
    (h : urlsplit url = .ok r) (hn : r.netloc ≠ []) :
    validate_gateway url = .ok ("https://".data ++ (r.netloc ++ r.path)) := by
  obtain ⟨_, _, _, _, hhead⟩ := urlsplit_ok_facts h
  have hp : r.path = [] ∨ ∃ p', r.path = '/' :: p' := by
    rcases hhead with h1 | h1 | h1
    · exact absurd h1 hn
    · exact Or.inl h1
    · exact Or.inr h1
  rw [validate_gateway_eq_of_split h]
  unfold gatewayOfSplit
  rw [if_neg (fun h0 => hn h0.1), if_pos hn, urlunsplit_https_netloc hn hp]

/-- With an empty authority and non-empty path, the gateway validator
rebuilds `https://` + path, the path playing the authority. -/
theorem gateway_pathhost_eval {url : Str} {r : SplitResult}
    (h : urlsplit url = .ok r) (hn : r.netloc = []) (hp : r.path ≠ []) :
    validate_gateway url = .ok ("https://".data ++ r.path) := by
  rw [validate_gateway_eq_of_split h]
  unfold gatewayOfSplit
  rw [if_neg (fun h0 => hp h0.2), if_neg (not_not_intro hn),
    urlunsplit_https_pathhost hp]

/-- Every accepted gateway URL has the shape `https://tail` with `tail`
non-empty and free of `#` and `?`. -/
theorem gateway_ok_shape {url res : Str}
    (h : validate_gateway url = .ok res) :
    ∃ tail, res = "https://".data ++ tail ∧ tail ≠ [] ∧
      '#' ∉ tail ∧ '?' ∉ tail := by
  rcases hs : urlsplit url with e | r
  · rw [validate_gateway_eq_of_err hs] at h; exact absurd h (by simp)
  · rw [validate_gateway_eq_of_split hs] at h
    obtain ⟨hno, hb, hhash, hq, hhead⟩ := urlsplit_ok_facts hs
    unfold gatewayOfSplit at h
    by_cases h0 : r.netloc = [] ∧ r.path = []
    · rw [if_pos h0] at h; exact absurd h (by simp)
    · rw [if_neg h0] at h
      by_cases hn : r.netloc = []
      · rw [if_neg (not_not_intro hn)] at h
        have hpne : r.path ≠ [] := fun hp => h0 ⟨hn, hp⟩
        rw [urlunsplit_https_pathhost hpne] at h
        simp only [Except.ok.injEq] at h
        exact ⟨r.path, h.symm, hpne, hhash, hq⟩
      · rw [if_pos hn] at h
        have hp : r.path = [] ∨ ∃ p', r.path = '/' :: p' := by
          rcases hhead with h1 | h1 | h1
          · exact absurd h1 hn
          · exact Or.inl h1
          · exact Or.inr h1
        rw [urlunsplit_https_netloc hn hp] at h
        simp only [Except.ok.injEq] at h
        refine ⟨r.netloc ++ r.path, h.symm, ?_, ?_, ?_⟩
        · intro hcontra; exact hn (List.append_eq_nil.mp hcontra).1
        · intro hm
          rcases List.mem_append.mp hm with hm | hm
          · have := hno '#' hm; simp [stopChar] at this
          · exact hhash hm
        · intro hm
          rcases List.mem_append.mp hm with hm | hm
          · have := hno '?' hm; simp [stopChar] at this
          · exact hq hm

/-- Feeding a rebuilt URL `https://tail` back through the validator returns
it unchanged, provided the re-split authority passes the bracket check. -/
theorem gateway_reparse_roundtrip {tail : Str} (hne : tail ≠ [])
    (h1 : '#' ∉ tail) (h2 : '?' ∉ tail)
    (hb : ¬ badBrackets (splitNetlocDelim tail).1) :
    validate_gateway ("https://".data ++ tail) =
      .ok ("https://".data ++ tail) := by
  have htail := splitNetlocDelim_eq_append tail
  rw [validate_gateway_eq_of_split (urlsplit_https_append h1 h2 hb)]
  unfold gatewayOfSplit
  dsimp only
  by_cases hn : (splitNetlocDelim tail).1 = []
  · have hp2 : (splitNetlocDelim tail).2 = tail := by
      conv_rhs => rw [htail]
      rw [hn, List.nil_append]
    rw [if_neg (fun h0 => hne (hp2 ▸ h0.2)),
      if_neg (not_not_intro hn), hp2, urlunsplit_https_pathhost hne]
  · have hp : (splitNetlocDelim tail).2 = [] ∨
        ∃ p', (splitNetlocDelim tail).2 = '/' :: p' := by
      rcases splitNetlocDelim_snd_head tail with h0 | ⟨d, rr, hd, hstop⟩
      · exact Or.inl h0
      · right
        rcases stopChar_cases hstop with h | h | h
        · exact ⟨rr, h ▸ hd⟩
        · exfalso
          exact h2 (htail ▸ List.mem_append.mpr (Or.inr (hd ▸ h ▸ List.mem_cons_self _ _)))
        · exfalso
          exact h1 (htail ▸ List.mem_append.mpr (Or.inr (hd ▸ h ▸ List.mem_cons_self _ _)))
    rw [if_neg (fun h0 => hn h0.1), if_pos hn,
      urlunsplit_https_netloc hn hp, ← htail]

/-! ## Lemmas about the enum error message -/

theorem containsInOrder_shift {ms : List Str} {suf : Str} (pre : Str)
    (h : containsInOrder ms suf) : containsInOrder ms (pre ++ suf) := by
  cases ms with
  | nil => trivial
  | cons s rest =>
    obtain ⟨a, b, hab, hrest⟩ := h
    exact ⟨pre ++ a, b, by rw [hab]; simp [List.append_assoc], hrest⟩

theorem containsInOrder_tupleAux : ∀ (ms : List Str) (tail : Str),
    containsInOrder ms (tupleReprAux ms ++ tail) := by
  intro ms
  induction ms with
  | nil => intro tail; trivial
  | cons s rest ih =>
    intro tail
    cases rest with
    | nil =>
      exact ⟨[sq], [sq] ++ tail, by simp [tupleReprAux, strRepr], trivial⟩
    | cons s2 rest2 =>
      refine ⟨[sq], ([sq] ++ ", ".data) ++ (tupleReprAux (s2 :: rest2) ++ tail),
        ?_, ?_⟩
      · simp [tupleReprAux, strRepr, List.append_assoc]
      · exact containsInOrder_shift _ (ih tail)

theorem tupleRepr_decomp : ∀ ms : List Str,
    ∃ close, tupleRepr ms = "(".data ++ (tupleReprAux ms ++ close) := by
  intro ms
  cases ms with
  | nil => exact ⟨")".data, by simp [tupleRepr, tupleReprAux]⟩
  | cons s rest =>
    cases rest with
    | nil => exact ⟨",)".data, by simp [tupleRepr, tupleReprAux]⟩
    | cons s2 rest2 => exact ⟨")".data, by simp [tupleRepr]⟩

/-- The full enum error message lists the canonical strings in declared
order. -/
theorem enumErrMsg_containsInOrder (param ename vstr : Str) (members : List Str) :
    containsInOrder members (enumErrMsg param ename vstr members) := by
  obtain ⟨close, hclose⟩ := tupleRepr_decomp members
  unfold enumErrMsg
  rw [hclose]
  have h1 := containsInOrder_tupleAux members (close ++ ".".data)
  have h2 := containsInOrder_shift
    ("The `".data ++ param ++ "` was not a valid value of ".data ++ ename ++
      ", was ".data ++ [sq] ++ vstr ++ [sq] ++ ". Use any of ".data ++ "(".data) h1
  have heq : "The `".data ++ param ++ "` was not a valid value of ".data ++ ename ++
      ", was ".data ++ [sq] ++ vstr ++ [sq] ++ ". Use any of ".data ++
      ("(".data ++ (tupleReprAux members ++ close)) ++ ".".data =
      ("The `".data ++ param ++ "` was not a valid value of ".data ++ ename ++
        ", was ".data ++ [sq] ++ vstr ++ [sq] ++ ". Use any of ".data ++ "(".data) ++
        (tupleReprAux members ++ (close ++ ".".data)) := by
    simp [List.append_assoc]
  rw [heq]
  exact h2

/-! ## Enum validation lemmas -/

theorem validate_enum_error_inv {v : PyValue} {E : PyEnum} {p e : Str}
    (h : validate_enum v E p = .error e) :
    e = enumErrMsg p E.name (pyStr v) E.members ∧ pyStr v ∉ E.members := by
  unfold validate_enum enumCall at h
  by_cases hmem : pyStr v ∈ E.members
  · rw [if_pos hmem] at h; simp at h
  · rw [if_neg hmem] at h
    simp only [Except.error.injEq] at h
    exact ⟨h.symm, hmem⟩

theorem enumErrMsg_has_param (p en vs : Str) (ms : List Str) :
    p <:+: enumErrMsg p en vs ms :=
  ⟨"The `".data,
    "` was not a valid value of ".data ++ en ++ ", was ".data ++ [sq] ++ vs ++
      [sq] ++ ". Use any of ".data ++ tupleRepr ms ++ ".".data,
    by simp [enumErrMsg, List.append_assoc]⟩

theorem enumErrMsg_has_value (p en vs : Str) (ms : List Str) :
    vs <:+: enumErrMsg p en vs ms :=
  ⟨"The `".data ++ p ++ "` was not a valid value of ".data ++ en ++
      ", was ".data ++ [sq],
    [sq] ++ ". Use any of ".data ++ tupleRepr ms ++ ".".data,
    by simp [enumErrMsg, List.append_assoc]⟩

/-! ## Claim theorems -/

/-- C1: for every enum type `E` and every value `v` that is a member of `E`
or equals a member's canonical string, `validate_enum v E p` returns that
member (the member with that canonical string) for any parameter name `p`;
the function is pure, so there are no side effects. -/
theorem validate_enum_resolves_members (E : PyEnum) (s p : Str)
    (h : s ∈ E.members) :
    validate_enum (.member s) E p = .ok s ∧
      validate_enum (.str s) E p = .ok s := by
  constructor <;> simp [validate_enum, enumCall, pyStr, h]

theorem validate_enum_resolves_members_witness :
    "csv".data ∈ encodingEnum.members ∧
      (validate_enum (.member "csv".data) encodingEnum "encoding".data =
          .ok "csv".data ∧
        validate_enum (.str "csv".data) encodingEnum "encoding".data =
          .ok "csv".data) :=
  ⟨by decide,
    validate_enum_resolves_members encodingEnum "csv".data "encoding".data
      (by decide)⟩

/-- C2: for every enum type `E` and value `v` matching no member and no
canonical string, `validate_enum v E p` raises `InvalidParameter`, and the
message contains the parameter name `p`, the literal offending value, and
every canonical string of `E` in declared order. -/
theorem validate_enum_error_message_complete (E : PyEnum) (v : PyValue)
    (p : Str) (h : pyStr v ∉ E.members) :
    ∃ msg, validate_enum v E p = .error msg ∧ p <:+: msg ∧
      pyStr v <:+: msg ∧ containsInOrder E.members msg := by
  refine ⟨enumErrMsg p E.name (pyStr v) E.members, ?_,
    enumErrMsg_has_param p E.name (pyStr v) E.members,
    enumErrMsg_has_value p E.name (pyStr v) E.members,
    enumErrMsg_containsInOrder p E.name (pyStr v) E.members⟩
  simp [validate_enum, enumCall, h]

theorem validate_enum_error_message_complete_witness :
    pyStr (.str "xml".data) ∉ encodingEnum.members ∧
      ∃ msg, validate_enum (.str "xml".data) encodingEnum "encoding".data =
          .error msg ∧
        "encoding".data <:+: msg ∧ pyStr (.str "xml".data) <:+: msg ∧
        containsInOrder encodingEnum.members msg :=
  ⟨by decide,
    validate_enum_error_message_complete encodingEnum (.str "xml".data)
      "encoding".data (by decide)⟩

/-- C7: `validate_maybe_enum` of the absence sentinel returns absence for
every enum type and parameter name, with a result independent of the enum
(the coercion is never consulted); and for present values it behaves
identically to `validate_enum`, success for success and failure for
failure with the same message. -/
theorem validate_maybe_enum_spec :
    (∀ (E : PyEnum) (p : Str), validate_maybe_enum none E p = .ok none) ∧
      (∀ (v : PyValue) (E : PyEnum) (p : Str),
        (∀ m, validate_maybe_enum (some v) E p = .ok (some m) ↔
          validate_enum v E p = .ok m) ∧
        (∀ e, validate_maybe_enum (some v) E p = .error e ↔
          validate_enum v E p = .error e)) := by
  refine ⟨fun E p => rfl, fun v E p => ⟨?_, ?_⟩⟩
  · intro m
    unfold validate_maybe_enum
    rcases hv : validate_enum v E p with e | m2 <;> simp [hv]
  · intro e
    unfold validate_maybe_enum
    rcases hv : validate_enum v E p with e2 | m2 <;> simp [hv]

/-- C3 counterexample: `validate_gateway` validates its parameter `url`
(the only name the source gives the validated parameter), and its failure
on the empty string produces the message
`(backtick)(backtick) is not a valid URL`, which does not contain the
parameter name — refuting the claim that every validation failure message
includes both the parameter name and the offending value. -/
theorem gateway_error_lacks_param_name :
    validate_gateway "".data = .error "`` is not a valid URL".data ∧
      ¬ ("url".data <:+: "`` is not a valid URL".data) :=
  ⟨rfl, by decide⟩

/-- C3 (amended): failures of `validate_enum` and `validate_maybe_enum`
include both the parameter name and the literal offending value in the
message; a failure raised by `validate_gateway`'s own check (i.e. when URL
splitting succeeded) includes the literal offending value, but no
parameter name. -/
theorem error_message_contents :
    (∀ (v : PyValue) (E : PyEnum) (p e : Str),
        validate_enum v E p = .error e → p <:+: e ∧ pyStr v <:+: e) ∧
      (∀ (v : PyValue) (E : PyEnum) (p e : Str),
        validate_maybe_enum (some v) E p = .error e →
          p <:+: e ∧ pyStr v <:+: e) ∧
      (∀ (url e : Str) (r : SplitResult), urlsplit url = .ok r →
        validate_gateway url = .error e → url <:+: e) := by
  have henum : ∀ (v : PyValue) (E : PyEnum) (p e : Str),
      validate_enum v E p = .error e → p <:+: e ∧ pyStr v <:+: e := by
    intro v E p e h
    obtain ⟨he, -⟩ := validate_enum_error_inv h
    subst he
    exact ⟨enumErrMsg_has_param .., enumErrMsg_has_value ..⟩
  refine ⟨henum, ?_, ?_⟩
  · intro v E p e h
    rcases hv : validate_enum v E p with e2 | m2
    · have hme : validate_maybe_enum (some v) E p = .error e2 := by
        unfold validate_maybe_enum; simp [hv]
      rw [hme] at h
      injection h with h
      exact h ▸ henum v E p e2 hv
    · have hme : validate_maybe_enum (some v) E p = .ok (some m2) := by
        unfold validate_maybe_enum; simp [hv]
      rw [hme] at h
      exact absurd h (by simp)
  · intro url e r hs h
    rw [validate_gateway_eq_of_split hs] at h
    unfold gatewayOfSplit at h
    by_cases h0 : r.netloc = [] ∧ r.path = []
    · rw [if_pos h0] at h
      simp only [Except.error.injEq] at h
      refine h ▸ ⟨['`'], '`' :: " is not a valid URL".data, ?_⟩
      simp [invalidUrlMsg]
    · rw [if_neg h0] at h
      by_cases hn : r.netloc ≠ []
      · rw [if_pos hn] at h; simp at h
      · rw [if_neg hn] at h; simp at h

theorem error_message_contents_witness :
    urlsplit "".data = .ok ⟨[], [], [], [], []⟩ ∧
      validate_gateway "".data = .error "`` is not a valid URL".data ∧
      "".data <:+: "`` is not a valid URL".data :=
  ⟨rfl, rfl,
    error_message_contents.2.2 "".data "`` is not a valid URL".data
      ⟨[], [], [], [], []⟩ rfl rfl⟩

/-- C4: for every URL whose split yields a non-empty authority,
`validate_gateway` returns scheme `https` plus that authority plus the
original path, the original scheme, query and fragment discarded. -/
theorem validate_gateway_netloc_branch {url : Str} {r : SplitResult}
    (h : urlsplit url = .ok r) (hn : r.netloc ≠ []) :
    validate_gateway url = .ok ("https://".data ++ r.netloc ++ r.path) := by
  rw [gateway_netloc_eval h hn, List.append_assoc]

theorem validate_gateway_netloc_branch_witness :
    validate_gateway "http://host.example.com/path".data =
      .ok "https://host.example.com/path".data :=
  @validate_gateway_netloc_branch "http://host.example.com/path".data
    ⟨"http".data, "host.example.com".data, "/path".data, [], []⟩
    rfl (by decide)

/-- C5: for every URL whose split yields an empty authority and a non-empty
path, `validate_gateway` uses the entire path verbatim as the authority of
the result (scheme `https`, empty path), without splitting it at any
slash. -/
theorem validate_gateway_path_as_host {url : Str} {r : SplitResult}
    (h : urlsplit url = .ok r) (hn : r.netloc = []) (hp : r.path ≠ []) :
    validate_gateway url = .ok ("https://".data ++ r.path) :=
  gateway_pathhost_eval h hn hp

theorem validate_gateway_path_as_host_witness :
    validate_gateway "host.example.com/path".data =
      .ok "https://host.example.com/path".data :=
  @validate_gateway_path_as_host "host.example.com/path".data
    ⟨[], [], "host.example.com/path".data, [], []⟩ rfl rfl (by decide)

/-- C6: `validate_gateway` raises `InvalidParameter` exactly when the split
of the URL yields neither an authority nor a path (raised splits yield
neither); in particular the empty string raises. -/
theorem validate_gateway_error_iff :
    (∀ url : Str, isErr (validate_gateway url) = true ↔
        ¬ ∃ r, urlsplit url = .ok r ∧ (r.netloc ≠ [] ∨ r.path ≠ [])) ∧
      isErr (validate_gateway "".data) = true := by
  constructor
  · intro url
    rcases hs : urlsplit url with e | r
    · rw [validate_gateway_eq_of_err hs]
      refine iff_of_true rfl ?_
      rintro ⟨r2, hr2, -⟩
      exact absurd hr2 (by simp)
    · rw [validate_gateway_eq_of_split hs]
      unfold gatewayOfSplit
      by_cases h0 : r.netloc = [] ∧ r.path = []
      · rw [if_pos h0]
        refine iff_of_true rfl ?_
        rintro ⟨r2, hr2, hor⟩
        have heq : r = r2 := by simpa using hr2
        rw [← heq] at hor
        rcases hor with hh | hh
        · exact hh h0.1
        · exact hh h0.2
      · have hex : ∃ r2, (Except.ok r : Except Str SplitResult) = .ok r2 ∧
            (r2.netloc ≠ [] ∨ r2.path ≠ []) := by
          refine ⟨r, rfl, ?_⟩
          by_cases hn : r.netloc = []
          · exact Or.inr (fun hp => h0 ⟨hn, hp⟩)
          · exact Or.inl hn
        rw [if_neg h0]
        by_cases hn : r.netloc ≠ []
        · rw [if_pos hn]
          exact iff_of_false (by simp [isErr]) (not_not_intro hex)
        · rw [if_neg hn]
          exact iff_of_false (by simp [isErr]) (not_not_intro hex)
  · rfl

/-- C8: every URL accepted by `validate_gateway` returns a single absolute
URL string with scheme `https`, containing no query and no fragment
component (no `?` and no `#` occurs in the result at all). -/
theorem validate_gateway_https_no_query_fragment {url res : Str}
    (h : validate_gateway url = .ok res) :
    (∃ tail, res = "https://".data ++ tail) ∧ '?' ∉ res ∧ '#' ∉ res := by
  obtain ⟨tail, heq, -, hhash, hq⟩ := gateway_ok_shape h
  subst heq
  refine ⟨⟨tail, rfl⟩, ?_, ?_⟩
  · intro hm
    rcases List.mem_append.mp hm with hm | hm
    · exact absurd hm (by decide)
    · exact hq hm
  · intro hm
    rcases List.mem_append.mp hm with hm | hm
    · exact absurd hm (by decide)
    · exact hhash hm

theorem validate_gateway_https_no_query_fragment_witness :
    (∃ tail, "https://host.example.com/path".data = "https://".data ++ tail) ∧
      '?' ∉ "https://host.example.com/path".data ∧
      '#' ∉ "https://host.example.com/path".data :=
  @validate_gateway_https_no_query_fragment
    "http://host.example.com/path?q=1#f".data
    "https://host.example.com/path".data rfl

/-- C9: for every URL whose split yields a non-empty authority, applying
`validate_gateway` twice gives the same result as applying it once. -/
theorem validate_gateway_idempotent_netloc {u : Str} {r : SplitResult}
    (h : urlsplit u = .ok r) (hn : r.netloc ≠ []) :
    ∃ res, validate_gateway u = .ok res ∧ validate_gateway res = .ok res := by
  obtain ⟨hno, hb, hhash, hq, hhead⟩ := urlsplit_ok_facts h
  have hp : r.path = [] ∨ ∃ p', r.path = '/' :: p' := by
    rcases hhead with h1 | h1 | h1
    · exact absurd h1 hn
    · exact Or.inl h1
    · exact Or.inr h1
  have hr : r.path = [] ∨ ∃ d r', r.path = d :: r' ∧ stopChar d = true := by
    rcases hp with h1 | ⟨p', h1⟩
    · exact Or.inl h1
    · exact Or.inr ⟨'/', p', h1, by decide⟩
  have hsplit := splitNetlocDelim_append hno hr
  refine ⟨"https://".data ++ (r.netloc ++ r.path),
    gateway_netloc_eval h hn, ?_⟩
  apply gateway_reparse_roundtrip
  · intro hcontra; exact hn (List.append_eq_nil.mp hcontra).1
  · intro hm
    rcases List.mem_append.mp hm with hm | hm
    · have := hno '#' hm; simp [stopChar] at this
    · exact hhash hm
  · intro hm
    rcases List.mem_append.mp hm with hm | hm
    · have := hno '?' hm; simp [stopChar] at this
    · exact hq hm
  · rw [hsplit]
    exact hb

theorem validate_gateway_idempotent_netloc_witness :
    ∃ res, validate_gateway "http://host.example.com/path".data = .ok res ∧
      validate_gateway res = .ok res :=
  @validate_gateway_idempotent_netloc "http://host.example.com/path".data
    ⟨"http".data, "host.example.com".data, "/path".data, [], []⟩
    rfl (by decide)

/-- C10 counterexample: idempotence fails on the accepted domain.
`validate_gateway` accepts `[a` (path-as-host branch, no authority
detected) and returns `https://[a`, but a second application raises
`Invalid IPv6 URL` because the rebuilt authority has an unmatched
bracket. -/
theorem gateway_not_idempotent_cex :
    validate_gateway "[a".data = .ok "https://[a".data ∧
      isErr (validate_gateway "https://[a".data) = true :=
  ⟨rfl, rfl⟩

/-- C10 (amended): on the accepted domain, whenever the second application
of `validate_gateway` also succeeds, it returns the first result
unchanged; the second application can fail only with the unmatched-bracket
error of URL splitting. -/
theorem validate_gateway_idempotent_on_success {u res res2 : Str}
    (h1 : validate_gateway u = .ok res)
    (h2 : validate_gateway res = .ok res2) : res2 = res := by
  obtain ⟨tail, heq, hne, hhash, hq⟩ := gateway_ok_shape h1
  subst heq
  by_cases hb : badBrackets (splitNetlocDelim tail).1
  · rw [validate_gateway_eq_of_err (urlsplit_https_append_bad hb)] at h2
    exact absurd h2 (by simp)
  · rw [gateway_reparse_roundtrip hne hhash hq hb] at h2
    simp only [Except.ok.injEq] at h2
    exact h2.symm

theorem validate_gateway_idempotent_on_success_witness :
    "https://host.example.com/path".data = "https://host.example.com/path".data :=
  @validate_gateway_idempotent_on_success "host.example.com/path".data
    "https://host.example.com/path".data
    "https://host.example.com/path".data rfl rfl

end Databento
